import Mathlib

/-!
Verification of the docker-tags registry client (`src/lib.rs`, `src/main.rs`).

The Rust code is shallowly embedded.  Strings are modelled byte-faithfully as
`List Char` (UTF-8 byte order coincides with code-point order, so comparing
code points models Rust's byte-wise `str` ordering).  The HTTP interaction of
`Image::fetch_tags` and `Image::handle_auth_challenge` is modelled by passing
the sequence of registry responses explicitly; external collaborators (the
`semver` crate, `serde_json`, the `url` crate, the filesystem) are modelled at
the level of the contracts the code relies on.
-/

namespace DockerTags

/-! ## Character-list utilities (models of Rust `str` methods) -/

/-- Lexicographic byte-wise comparison, the model of Rust `str::cmp`. -/
def charsCmp : List Char → List Char → Ordering
  | [], [] => .eq
  | [], _ :: _ => .lt
  | _ :: _, [] => .gt
  | a :: as, b :: bs => (compare a.toNat b.toNat).then (charsCmp as bs)

/-- Model of Rust `str::split(char)`: always yields at least one
(possibly empty) piece. -/
def splitOnChar (sep : Char) : List Char → List (List Char)
  | [] => [[]]
  | c :: cs =>
    if c = sep then [] :: splitOnChar sep cs
    else
      match splitOnChar sep cs with
      | [] => [[c]]
      | p :: ps => (c :: p) :: ps

/-- Model of Rust `str::split_once(char)`: split at the first occurrence. -/
def splitOnceChar (sep : Char) : List Char → Option (List Char × List Char)
  | [] => none
  | c :: cs =>
    if c = sep then some ([], cs)
    else (splitOnceChar sep cs).map (fun p => (c :: p.1, p.2))

/-- Model of Rust `str::trim_start_matches(char)`: drops every leading
occurrence of the pattern, not just one. -/
def trimStartMatchesChar (t : Char) : List Char → List Char
  | [] => []
  | c :: cs => if c = t then trimStartMatchesChar t cs else c :: cs

def dropEndWhile (p : Char → Bool) (l : List Char) : List Char :=
  (l.reverse.dropWhile p).reverse

/-- Model of Rust `str::trim`. -/
def trimChars (l : List Char) : List Char :=
  dropEndWhile (fun c => c.isWhitespace) (l.dropWhile fun c => c.isWhitespace)

/-- Model of Rust `str::trim_matches(char)`: strips all leading and all
trailing occurrences. -/
def trimMatchesChar (t : Char) (l : List Char) : List Char :=
  dropEndWhile (fun c => c == t) (l.dropWhile fun c => c == t)

/-! ## Model of the external `semver` crate (version 1)

`Version::parse` and the `Ord` instances of `Version`, `Prerelease` and
`BuildMetadata`, following the crate's strict grammar and comparison rules.
Pre-release and build metadata are kept as their dot-separated segments. -/

structure Version where
  major : Nat
  minor : Nat
  patch : Nat
  pre : List (List Char)
  build : List (List Char)
deriving DecidableEq

/-- Characters allowed in pre-release and build identifiers:
ASCII alphanumerics and `-`. -/
def isIdentChar (c : Char) : Bool :=
  c.isDigit || c.isUpper || c.isLower || c == '-'

/-- Numeric value of a digit run. -/
def digitsVal (l : List Char) : Nat :=
  l.foldl (fun n c => n * 10 + (c.toNat - '0'.toNat)) 0

/-- Parse a `major`/`minor`/`patch` component: at least one digit, no leading
zero, value bounded by `u64` (the crate rejects overflow). -/
def parseNumericId (l : List Char) : Option (Nat × List Char) :=
  let digits := l.takeWhile Char.isDigit
  let rest := l.dropWhile Char.isDigit
  if digits = [] then none
  else if digits.head? = some '0' ∧ 1 < digits.length then none
  else if digitsVal digits < 2 ^ 64 then some (digitsVal digits, rest)
  else none

/-- A valid pre-release identifier: nonempty, identifier characters only, and
an all-digit identifier longer than one character must not start with `0`. -/
def validPreSegment (s : List Char) : Bool :=
  !s.isEmpty && s.all isIdentChar &&
    !(s.all Char.isDigit && decide (1 < s.length) && s.head? == some '0')

/-- A valid build identifier: nonempty, identifier characters only
(leading zeros are allowed in build metadata). -/
def validBuildSegment (s : List Char) : Bool :=
  !s.isEmpty && s.all isIdentChar

/-- Parse build metadata after `+`: a maximal run of identifier characters
and dots, split on dots, every segment valid, nothing after the run. -/
def parseBuild (l : List Char) : Option (List (List Char)) :=
  let run := l.takeWhile fun c => isIdentChar c || c == '.'
  let rest := l.dropWhile fun c => isIdentChar c || c == '.'
  let segs := splitOnChar '.' run
  if run.isEmpty || !segs.all validBuildSegment || !rest.isEmpty then none
  else some segs

/-- Parse what follows `major.minor.patch`: optional `-prerelease`, optional
`+build`, then end of input. -/
def parseTail (l : List Char) : Option (List (List Char) × List (List Char)) :=
  match l with
  | [] => some ([], [])
  | '-' :: r =>
    let run := r.takeWhile fun c => isIdentChar c || c == '.'
    let rest := r.dropWhile fun c => isIdentChar c || c == '.'
    let segs := splitOnChar '.' run
    if run.isEmpty || !segs.all validPreSegment then none
    else
      match rest with
      | [] => some (segs, [])
      | '+' :: b => (parseBuild b).map fun bs => (segs, bs)
      | _ => none
  | '+' :: b => (parseBuild b).map fun bs => ([], bs)
  | _ => none

/-- Model of `semver::Version::parse`; `none` stands for any parse error. -/
def versionParse (l : List Char) : Option Version := do
  let (major, r1) ← parseNumericId l
  match r1 with
  | '.' :: r1 => do
    let (minor, r2) ← parseNumericId r1
    match r2 with
    | '.' :: r2 => do
      let (patch, r3) ← parseNumericId r2
      let (pre, build) ← parseTail r3
      pure ⟨major, minor, patch, pre, build⟩
    | _ => none
  | _ => none

/-- Crate comparison of two all-digit identifiers without leading zeros:
shorter numeral first, then lexicographically. -/
def numericSegCmp (l r : List Char) : Ordering :=
  (compare l.length r.length).then (charsCmp l r)

/-- One pre-release identifier against another (crate `Prerelease::cmp`):
numeric identifiers sort before alphanumeric ones. -/
def preSegCmp (l r : List Char) : Ordering :=
  match l.all Char.isDigit, r.all Char.isDigit with
  | true, true => numericSegCmp l r
  | true, false => .lt
  | false, true => .gt
  | false, false => charsCmp l r

def preSegsCmp : List (List Char) → List (List Char) → Ordering
  | [], [] => .eq
  | [], _ :: _ => .lt
  | _ :: _, [] => .gt
  | l :: ls, r :: rs => (preSegCmp l r).then (preSegsCmp ls rs)

/-- Crate `Prerelease::cmp`: the empty pre-release (a release) sorts after
any nonempty pre-release. -/
def preCmp (a b : List (List Char)) : Ordering :=
  match a, b with
  | [], [] => .eq
  | [], _ :: _ => .gt
  | _ :: _, [] => .lt
  | _, _ => preSegsCmp a b

/-- One build identifier against another (crate `BuildMetadata::cmp`):
all-digit identifiers may carry leading zeros and are ordered
`0 < 00 < 1 < 01 < 001 < 2 < 10`. -/
def buildSegCmp (l r : List Char) : Ordering :=
  match l.all Char.isDigit, r.all Char.isDigit with
  | true, true =>
    let l' := l.dropWhile (· == '0')
    let r' := r.dropWhile (· == '0')
    ((compare l'.length r'.length).then (charsCmp l' r')).then
      (compare l.length r.length)
  | true, false => .lt
  | false, true => .gt
  | false, false => charsCmp l r

def buildSegsCmp : List (List Char) → List (List Char) → Ordering
  | [], [] => .eq
  | [], _ :: _ => .lt
  | _ :: _, [] => .gt
  | l :: ls, r :: rs => (buildSegCmp l r).then (buildSegsCmp ls rs)

/-- Crate `Version::cmp`: major, minor, patch, pre-release, build. -/
def versionCmp (a b : Version) : Ordering :=
  (compare a.major b.major).then
    ((compare a.minor b.minor).then
      ((compare a.patch b.patch).then
        ((preCmp a.pre b.pre).then (buildSegsCmp a.build b.build))))

/-! ## Tags and their ordering (src/lib.rs `struct Tag`, `impl Ord for Tag`) -/

/-- A Docker image tag. -/
structure Tag where
  name : String
deriving DecidableEq

/-- Model of `impl Ord for Tag` (src/lib.rs): parse each name as a semantic
version after `trim_start_matches('v')`; two versions compare reversed
(latest versions first), a version sorts before a non-version, and two
non-versions fall back to byte-wise comparison of the unmodified names. -/
def tagCmp (a b : Tag) : Ordering :=
  match versionParse (trimStartMatchesChar 'v' a.name.data),
        versionParse (trimStartMatchesChar 'v' b.name.data) with
  | some va, some vb => versionCmp vb va
  | some _, none => .lt
  | none, some _ => .gt
  | none, none => charsCmp a.name.data b.name.data

def insertTag (t : Tag) : List Tag → List Tag
  | [] => [t]
  | x :: xs => if tagCmp t x = .gt then x :: insertTag t xs else t :: x :: xs

/-- Stable ascending insertion sort by `tagCmp`, the model of the stable
ascending `tags.sort()` applied by the caller in src/main.rs. -/
def sortTags (l : List Tag) : List Tag := l.foldr insertTag []

/-! ## Image references (src/lib.rs `struct Image`, `impl TryFrom<&str>`) -/

structure Image where
  registry : String
  repository : String
deriving DecidableEq

/-- Model of `impl TryFrom<&str> for Image` (src/lib.rs): split the input on
`/` and classify by segment count and a `.` in the first segment. -/
def imageTryFrom (value : String) : Except String Image :=
  match splitOnChar '/' value.data with
  | [_] => .ok ⟨"docker.io", value⟩
  | [p0, p1] =>
    if '.' ∈ p0 then .ok ⟨String.mk p0, String.mk p1⟩
    else .ok ⟨"docker.io", value⟩
  | [p0, p1, p2] =>
    if '.' ∈ p0 then .ok ⟨String.mk p0, String.mk (p1 ++ '/' :: p2)⟩
    else .error "Invalid image format"
  | _ => .error "Invalid image format"

/-! ## Reference definitions of the tag ordering (spec §4.5)

Two transcriptions of the §4.5 reference comparison, used to compare the
code's `tagCmp` against the spec's words: one strips a single leading `v`
(the spec as written), the other strips every leading `v`. -/

def stripSingleV : List Char → List Char
  | 'v' :: r => r
  | l => l

/-- The §4.5 reference comparison read literally: strip a single leading `v`
before the parse attempt; the fallback compares the unmodified names. -/
def compareTagsRefSingle (a b : Tag) : Ordering :=
  match versionParse (stripSingleV a.name.data),
        versionParse (stripSingleV b.name.data) with
  | some va, some vb => versionCmp vb va
  | some _, none => .lt
  | none, some _ => .gt
  | none, none => charsCmp a.name.data b.name.data

/-- The §4.5 reference comparison with the strip rule amended to the code's
behavior: strip every leading `v` before the parse attempt. -/
def compareTagsRefAll (a b : Tag) : Ordering :=
  match versionParse (trimStartMatchesChar 'v' a.name.data),
        versionParse (trimStartMatchesChar 'v' b.name.data) with
  | some va, some vb => versionCmp vb va
  | some _, none => .lt
  | none, some _ => .gt
  | none, none => charsCmp a.name.data b.name.data

/-- When `tagCmp` ties, read off the code: both names (after `v`-stripping)
parse to the same semantic version, or neither parses and the names are
byte-for-byte equal. -/
def tagTie (a b : Tag) : Prop :=
  match versionParse (trimStartMatchesChar 'v' a.name.data),
        versionParse (trimStartMatchesChar 'v' b.name.data) with
  | some va, some vb => va = vb
  | none, none => a.name = b.name
  | _, _ => False

/-! ## Credential reader (src/lib.rs `Image::read_auth_token`)

The filesystem and `serde_json` are external collaborators: the model takes
the result of reading `~/.docker/config.json` (`none` when the file is
absent or cannot be opened) and the decoding function applied to its
contents.  Maps decoded from JSON are modelled as association lists. -/

/-- Decoded shape of the Docker config: the `auths` map, each entry keyed by
registry and carrying its `auth` string (serde's `DockerConfig` and
`DockerAuth`). -/
structure DockerConfig where
  auths : List (String × String)
deriving DecidableEq

def lookupKey {κ α : Type} [DecidableEq κ] : List (κ × α) → κ → Option α
  | [], _ => none
  | (k, v) :: rest, key => if k = key then some v else lookupKey rest key

/-- Model of `Image::read_auth_token`.  Errors are context chains, top
message first. -/
def read_auth_token (registry : String) (file : Option String)
    (decode : String → Except String DockerConfig) :
    Except (List String) (Option String) :=
  match file with
  | some contents =>
    match decode contents with
    | .error e => .error ["Failed to parse Docker config", e]
    | .ok config =>
      let key :=
        if registry = "docker.io" then "https://index.docker.io/v1/" else registry
      .ok (lookupKey config.auths key)
  | none => .ok none

/-! ## Auth negotiator (src/lib.rs `Image::handle_auth_challenge`)

The HTTP client is external: the exchange with the token realm is scripted.
The code's `HashMap` of challenge parameters is modelled as an
insertion-ordered association map with replacement on duplicate keys (the
`HashMap` iteration order is unspecified; the order only affects the
ordering of query parameters in the realm URL). -/

/-- Display form of `reqwest::StatusCode` for the codes exercised here. -/
def statusDisplay (s : Nat) : String :=
  match s with
  | 200 => "200 OK"
  | 401 => "401 Unauthorized"
  | 403 => "403 Forbidden"
  | 404 => "404 Not Found"
  | 500 => "500 Internal Server Error"
  | n => toString n

/-- `HashMap::insert`: replace the value under an existing key, otherwise
append the new entry. -/
def upsert {κ α : Type} [DecidableEq κ] : List (κ × α) → κ → α → List (κ × α)
  | [], k, v => [(k, v)]
  | (k0, v0) :: rest, k, v =>
    if k0 = k then (k0, v) :: rest else (k0, v0) :: upsert rest k v

/-- `HashMap::remove`: drop the entry under the key. -/
def eraseKey {κ α : Type} [DecidableEq κ] : List (κ × α) → κ → List (κ × α)
  | [], _ => []
  | (k0, v0) :: rest, k =>
    if k0 = k then rest else (k0, v0) :: eraseKey rest k

/-- The parameter loop of `handle_auth_challenge`: split the challenge rest
on `,`, split each piece at the first `=`, trim whitespace from key and
value and strip surrounding double quotes from the value; pieces without
`=` are skipped. -/
def parseChallengeParams (rest : List Char) : List (List Char × List Char) :=
  (splitOnChar ',' rest).foldl
    (fun m piece =>
      match splitOnceChar '=' piece with
      | some (k, v) => upsert m (trimChars k) (trimMatchesChar '"' (trimChars v))
      | none => m)
    []

/-- Model of `Url::parse_with_params` followed by `to_string`: attach each
pair as a query-string argument.  URL syntax validation, normalization and
percent-encoding of the `url` crate are not modelled; the parameter values
exercised here round-trip unchanged. -/
def urlWithParams (base : String) (ps : List (List Char × List Char)) : String :=
  ps.foldl
    (fun u p =>
      u ++ (if '?' ∈ u.data then "&" else "?") ++ String.mk p.1 ++ "=" ++ String.mk p.2)
    base

/-- The outgoing token-realm request: target URL and the optional Basic
credential attached to it. -/
structure AuthRequest where
  url : String
  basic : Option String
deriving DecidableEq

/-- Model of `Image::handle_auth_challenge`.  `authRes` is the outcome of
`read_auth_token` (whose error the `?` operator propagates), `tokenResp`
scripts the realm exchange: `none` is a transport failure, otherwise a
status code and, for the body, the decoded `token` field (`none` when the
body does not decode).  Returns the request issued (when one was) and the
result. -/
def handle_auth_challenge (authRes : Except (List String) (Option String))
    (tokenResp : Option (Nat × Option String)) (hdr : String) :
    Option AuthRequest × Except (List String) (String × String) :=
  match splitOnceChar ' ' hdr.data with
  | none => (none, .error ["Invalid authentication header: " ++ hdr])
  | some (scheme, rest) =>
    let params := parseChallengeParams rest
    match lookupKey params "realm".data with
    | none => (none, .error ["No realm found in WWW-Authenticate header: " ++ hdr])
    | some realm =>
      let url := urlWithParams (String.mk realm) (eraseKey params "realm".data)
      match authRes with
      | .error e => (none, .error e)
      | .ok cred =>
        match tokenResp with
        | none => (some ⟨url, cred⟩, .error ["Failed to fetch token from " ++ url])
        | some (status, body) =>
          if status = 200 then
            match body with
            | some tok => (some ⟨url, cred⟩, .ok (String.mk scheme, tok))
            | none =>
              (some ⟨url, cred⟩, .error ["Failed to parse token response from " ++ url])
          else (some ⟨url, cred⟩, .error ["Failed to authenticate: " ++ statusDisplay status])

/-- A challenge header of the §4.3 shape: parameters rendered as
`key="value"` and joined with commas after the scheme. -/
def joinParamsChars : List (List Char × List Char) → List Char
  | [] => []
  | [(k, v)] => k ++ '=' :: '"' :: (v ++ ['"'])
  | (k, v) :: rest => k ++ '=' :: '"' :: (v ++ '"' :: ',' :: joinParamsChars rest)

def mkAuthHeader (scheme : List Char) (ps : List (List Char × List Char)) : String :=
  String.mk (scheme ++ ' ' :: joinParamsChars ps)

/-- The rendering of a single `key="value"` parameter. -/
def entryChars (p : List Char × List Char) : List Char :=
  p.1 ++ '=' :: '"' :: (p.2 ++ ['"'])

/-! ## Tag fetcher (src/lib.rs `Image::fetch_tags`)

The registry is external: the loop consumes a script of responses, one per
issued request.  `authFn` stands for `handle_auth_challenge` applied to a
header value (its HTTP side is scripted separately above).  The model also
returns the trace of issued requests as `(url, bearer token)` pairs, the
empty token standing for the code's `String::new()` sentinel meaning no
`Authorization` header. -/

/-- A scripted registry response to one tags-list request.  `ok` carries the
decoded `tags` array of a 200 body; `unauthorized` is a 401 with or without
a `WWW-Authenticate` header value. -/
inductive Resp
  | ok (tags : List String)
  | unauthorized (wwwAuth : Option String)
  | notFound
  | other (status : Nat)
deriving DecidableEq

/-- Outcome of the loop.  `panic` is the out-of-bounds index taken on an
empty page (`page_tags[page_len - 1]` with `page_len = 0`); `noResponse`
marks an exhausted script and corresponds to no program behavior. -/
inductive FetchOutcome
  | ok (tags : List Tag)
  | err (chain : List String)
  | panic
  | noResponse
deriving DecidableEq

/-- The pagination loop of `Image::fetch_tags`: arguments are the base URL
(closed over by the loop), the next request URL, the current bearer token,
the accumulated tags, and the remaining scripted responses. -/
def fetchLoop (authFn : String → Except (List String) (String × String))
    (url : String) :
    String → String → List Tag → List Resp → List (String × String) × FetchOutcome
  | nextUrl, token, _, [] => ([(nextUrl, token)], .noResponse)
  | nextUrl, token, acc, r :: rest =>
    match r with
    | .ok tags =>
      match tags.getLast? with
      | none => ([(nextUrl, token)], .panic)
      | some lastTag =>
        let acc' := acc ++ tags.map Tag.mk
        if tags.length < 100 then ([(nextUrl, token)], .ok acc')
        else
          let next' := urlWithParams url [("last".data, lastTag.data)]
          let res := fetchLoop authFn url next' token acc' rest
          ((nextUrl, token) :: res.1, res.2)
    | .unauthorized (some hdr) =>
      if token ≠ "" then
        ([(nextUrl, token)],
         .err ["Image not found", "Got HTTP 401 with authentication token"])
      else
        match authFn hdr with
        | .error e => ([(nextUrl, token)], .err ("Image not found" :: e))
        | .ok st =>
          let res := fetchLoop authFn url nextUrl st.2 acc rest
          ((nextUrl, token) :: res.1, res.2)
    | .unauthorized none => ([(nextUrl, token)], .err [statusDisplay 401])
    | .notFound => ([(nextUrl, token)], .err ["Image not found"])
    | .other status => ([(nextUrl, token)], .err [statusDisplay status])

/-- Effective base URL built before the loop: Docker Hub is served at
`registry-1.docker.io`, and a Hub repository without `/` gets the
`library/` namespace. -/
def baseUrl (img : Image) : String :=
  let registry :=
    if img.registry = "docker.io" then "registry-1.docker.io" else img.registry
  let repository :=
    if img.registry = "docker.io" ∧ ¬ ('/' ∈ img.repository.data) then
      "library/" ++ img.repository
    else img.repository
  "https://" ++ registry ++ "/v2/" ++ repository ++ "/tags/list?n=100"

/-- Model of `Image::fetch_tags`: start unauthenticated at the base URL with
no accumulated tags. -/
def fetch_tags (img : Image)
    (authFn : String → Except (List String) (String × String))
    (responses : List Resp) : List (String × String) × FetchOutcome :=
  fetchLoop authFn (baseUrl img) (baseUrl img) "" [] responses

/-- The expected request trace over a run of 200 pages: every cursor URL is
built from the base URL plus a fresh `last=` parameter naming the final
element of the page just received — never from the previous request URL. -/
def traceFor (url nextUrl token : String) :
    List (List String) → List (String × String)
  | [] => []
  | p :: ps =>
    (nextUrl, token) ::
      traceFor url (urlWithParams url [("last".data, (p.getLast?.getD "").data)])
        token ps

/-! ## The orderings reflect equality -/

lemma then_eq_eq {o p : Ordering} : o.then p = .eq ↔ o = .eq ∧ p = .eq := by
  cases o <;> simp [Ordering.then]

lemma charCmp_eq_iff {a b : Char} : compare a.toNat b.toNat = .eq ↔ a = b := by
  rw [Nat.compare_eq_eq]
  constructor
  · intro h
    exact Char.ext (UInt32.ext h)
  · rintro rfl
    rfl

lemma charsCmp_eq_iff : ∀ (l r : List Char), charsCmp l r = .eq ↔ l = r
  | [], [] => by simp [charsCmp]
  | [], _ :: _ => by simp [charsCmp]
  | _ :: _, [] => by simp [charsCmp]
  | a :: as, b :: bs => by
    simp [charsCmp, then_eq_eq, charCmp_eq_iff, charsCmp_eq_iff as bs]

lemma numericSegCmp_eq_iff (l r : List Char) : numericSegCmp l r = .eq ↔ l = r := by
  unfold numericSegCmp
  rw [then_eq_eq, Nat.compare_eq_eq, charsCmp_eq_iff]
  constructor
  · rintro ⟨-, h⟩
    exact h
  · rintro rfl
    exact ⟨rfl, rfl⟩

lemma preSegCmp_eq_iff (l r : List Char) : preSegCmp l r = .eq ↔ l = r := by
  unfold preSegCmp
  cases hl : l.all Char.isDigit <;> cases hr : r.all Char.isDigit
  · exact charsCmp_eq_iff l r
  · constructor
    · intro h
      exact absurd h (by simp)
    · rintro rfl
      simp_all
  · constructor
    · intro h
      exact absurd h (by simp)
    · rintro rfl
      simp_all
  · exact numericSegCmp_eq_iff l r

lemma preSegsCmp_eq_iff : ∀ (a b : List (List Char)), preSegsCmp a b = .eq ↔ a = b
  | [], [] => by simp [preSegsCmp]
  | [], _ :: _ => by simp [preSegsCmp]
  | _ :: _, [] => by simp [preSegsCmp]
  | l :: ls, r :: rs => by
    simp [preSegsCmp, then_eq_eq, preSegCmp_eq_iff, preSegsCmp_eq_iff ls rs]

lemma preCmp_eq_iff (a b : List (List Char)) : preCmp a b = .eq ↔ a = b := by
  unfold preCmp
  match a, b with
  | [], [] => simp
  | [], _ :: _ => simp
  | _ :: _, [] => simp
  | _ :: _, _ :: _ => exact preSegsCmp_eq_iff _ _

lemma dropWhile_zeros_decomp :
    ∀ (l : List Char),
      l = List.replicate (l.length - (l.dropWhile (· == '0')).length) '0' ++
        l.dropWhile (· == '0')
  | [] => rfl
  | c :: cs => by
    by_cases h : c = '0'
    · subst h
      have hd : ('0' :: cs).dropWhile (· == '0') = cs.dropWhile (· == '0') := by
        simp [List.dropWhile]
      have hlen : (cs.dropWhile (· == '0')).length ≤ cs.length :=
        (List.dropWhile_sublist _).length_le
      rw [hd]
      have : ('0' :: cs).length - (cs.dropWhile (· == '0')).length =
          (cs.length - (cs.dropWhile (· == '0')).length) + 1 := by
        simp only [List.length_cons]
        omega
      rw [this, List.replicate_succ, List.cons_append]
      exact congrArg ('0' :: ·) (dropWhile_zeros_decomp cs)
    · have hb : (c == '0') = false := by simp [h]
      have hd : (c :: cs).dropWhile (· == '0') = c :: cs := by
        simp [List.dropWhile, hb]
      rw [hd]
      simp

lemma buildSegCmp_eq_iff (l r : List Char) : buildSegCmp l r = .eq ↔ l = r := by
  unfold buildSegCmp
  cases hl : l.all Char.isDigit <;> cases hr : r.all Char.isDigit
  · exact charsCmp_eq_iff l r
  · constructor
    · intro h
      exact absurd h (by simp)
    · rintro rfl
      simp_all
  · constructor
    · intro h
      exact absurd h (by simp)
    · rintro rfl
      simp_all
  · simp only []
    rw [then_eq_eq, then_eq_eq, Nat.compare_eq_eq, Nat.compare_eq_eq,
      charsCmp_eq_iff]
    constructor
    · rintro ⟨⟨-, heq⟩, hlen⟩
      have el := dropWhile_zeros_decomp l
      have er := dropWhile_zeros_decomp r
      rw [el, er, heq, hlen]
    · rintro rfl
      exact ⟨⟨rfl, rfl⟩, rfl⟩

lemma buildSegsCmp_eq_iff : ∀ (a b : List (List Char)), buildSegsCmp a b = .eq ↔ a = b
  | [], [] => by simp [buildSegsCmp]
  | [], _ :: _ => by simp [buildSegsCmp]
  | _ :: _, [] => by simp [buildSegsCmp]
  | l :: ls, r :: rs => by
    simp [buildSegsCmp, then_eq_eq, buildSegCmp_eq_iff, buildSegsCmp_eq_iff ls rs]

lemma versionCmp_eq_iff (a b : Version) : versionCmp a b = .eq ↔ a = b := by
  unfold versionCmp
  simp only [then_eq_eq, Nat.compare_eq_eq, preCmp_eq_iff, buildSegsCmp_eq_iff]
  constructor
  · rintro ⟨h1, h2, h3, h4, h5⟩
    cases a
    cases b
    simp_all
  · rintro rfl
    simp

/-- Claim C3 counterexample: on the pair `vv1.2.3` / `latest` the code's
comparison (which strips every leading `v`, so `vv1.2.3` parses as a
version) disagrees with the §4.5 reference definition as written
(strip a single `v`, under which neither side parses and the byte-wise
fallback puts `vv1.2.3` after `latest`). -/
theorem tagCmp_ne_singleV_reference :
    tagCmp ⟨"vv1.2.3"⟩ ⟨"latest"⟩ = .lt ∧
      compareTagsRefSingle ⟨"vv1.2.3"⟩ ⟨"latest"⟩ = .gt := by decide

/-- Claim C3 (amended): `tagCmp` coincides with the §4.5 reference
definition once the strip rule reads "strip every leading `v`" instead of
"strip a single leading `v`". -/
theorem tagCmp_eq_allV_reference : ∀ (a b : Tag), tagCmp a b = compareTagsRefAll a b :=
  fun _ _ => rfl

/-- Claim C6 counterexample: `1.2.3` and `v1.2.3` compare `Equal` although
the names are not byte-for-byte equal (both parse to the version 1.2.3). -/
theorem tagCmp_tie_not_byte_equal :
    tagCmp ⟨"1.2.3"⟩ ⟨"v1.2.3"⟩ = .eq ∧ ("1.2.3" : String) ≠ "v1.2.3" := by decide

/-- Claim C6 (amended): `tagCmp a b = Equal` exactly when both names parse
(after `v`-stripping) to the same semantic version, or neither parses and
the two names are byte-for-byte equal. -/
theorem tagCmp_eq_iff_tie (a b : Tag) : tagCmp a b = .eq ↔ tagTie a b := by
  unfold tagCmp tagTie
  cases hpa : versionParse (trimStartMatchesChar 'v' a.name.data) <;>
    cases hpb : versionParse (trimStartMatchesChar 'v' b.name.data)
  · simp only []
    rw [charsCmp_eq_iff]
    exact ⟨fun h => String.ext h, fun h => congrArg String.data h⟩
  · simp
  · simp
  · simp only []
    rw [versionCmp_eq_iff]
    exact eq_comm

/-- Claim C7 counterexample: sorting the §8 scenario list does not produce
the list the spec claims (the spec's list has `v1.2.0` before `v1.9.0`,
which contradicts newest-version-first). -/
theorem sort_scenario_ne_spec_list :
    sortTags [⟨"v1.2.0"⟩, ⟨"1.10.0"⟩, ⟨"latest"⟩, ⟨"v1.9.0"⟩, ⟨"alpha"⟩] ≠
      [⟨"1.10.0"⟩, ⟨"v1.2.0"⟩, ⟨"v1.9.0"⟩, ⟨"alpha"⟩, ⟨"latest"⟩] := by decide

/-- Claim C7 (amended): sorting `["v1.2.0","1.10.0","latest","v1.9.0","alpha"]`
with the tag ordering yields `["1.10.0","v1.9.0","v1.2.0","alpha","latest"]`
(semver descending, then lexicographic ascending). -/
theorem sort_scenario_result :
    sortTags [⟨"v1.2.0"⟩, ⟨"1.10.0"⟩, ⟨"latest"⟩, ⟨"v1.9.0"⟩, ⟨"alpha"⟩] =
      [⟨"1.10.0"⟩, ⟨"v1.9.0"⟩, ⟨"v1.2.0"⟩, ⟨"alpha"⟩, ⟨"latest"⟩] := by decide

/-- Claim C2: image-reference parsing follows the §4.1 segment-count table:
one segment gives Docker Hub with the whole input as repository; two
segments give (first, second) when the first contains a dot and Docker Hub
with the unchanged input otherwise; three segments give
(first, second/third) when the first contains a dot and fail otherwise;
four or more segments fail with the invalid-image-format error. -/
theorem imageTryFrom_follows_table (s : String) :
    (∀ p0, splitOnChar '/' s.data = [p0] →
      imageTryFrom s = .ok ⟨"docker.io", s⟩) ∧
    (∀ p0 p1, splitOnChar '/' s.data = [p0, p1] →
      imageTryFrom s =
        if '.' ∈ p0 then .ok ⟨String.mk p0, String.mk p1⟩
        else .ok ⟨"docker.io", s⟩) ∧
    (∀ p0 p1 p2, splitOnChar '/' s.data = [p0, p1, p2] →
      imageTryFrom s =
        if '.' ∈ p0 then .ok ⟨String.mk p0, String.mk (p1 ++ '/' :: p2)⟩
        else .error "Invalid image format") ∧
    (4 ≤ (splitOnChar '/' s.data).length →
      imageTryFrom s = .error "Invalid image format") := by
  refine ⟨?_, ?_, ?_, ?_⟩
  · intro p0 h
    simp [imageTryFrom, h]
  · intro p0 p1 h
    simp only [imageTryFrom, h]
  · intro p0 p1 p2 h
    simp only [imageTryFrom, h]
  · intro h4
    unfold imageTryFrom
    generalize hl : splitOnChar '/' s.data = l at h4 ⊢
    match l, h4 with
    | a :: b :: c :: d :: t, _ => rfl

/-- Claim C2 witness: concrete rows of the table. -/
theorem imageTryFrom_follows_table_witness :
    imageTryFrom "debian" = .ok ⟨"docker.io", "debian"⟩ ∧
      imageTryFrom "quay.io/prometheus/prometheus" =
        .ok ⟨"quay.io", "prometheus/prometheus"⟩ ∧
      imageTryFrom "a/b/c/d" = .error "Invalid image format" := by
  refine ⟨?_, ?_, ?_⟩
  · exact (imageTryFrom_follows_table "debian").1 "debian".data rfl
  · have h := (imageTryFrom_follows_table "quay.io/prometheus/prometheus").2.2.1
      "quay.io".data "prometheus".data "prometheus".data rfl
    rw [h]
    rfl
  · exact (imageTryFrom_follows_table "a/b/c/d").2.2.2 (by rfl)

/-- Claim C10: parsing the empty string succeeds with registry `docker.io`
and the empty repository (splitting the empty string on `/` yields one
empty segment, so the single-segment rule applies). -/
theorem imageTryFrom_empty_string : imageTryFrom "" = .ok ⟨"docker.io", ""⟩ := rfl

/-- Claim C9: the credential reader returns no credential (not an error)
when the config file is absent or unreadable; fails with the parse-error
context when the file is present but does not decode; and otherwise looks up
the key `https://index.docker.io/v1/` when the registry is `docker.io` and
the literal registry host otherwise, returning the raw auth string, or no
credential when the key is absent. -/
theorem read_auth_token_correct (registry contents e : String)
    (decode : String → Except String DockerConfig) (cfg : DockerConfig) :
    (read_auth_token registry none decode = .ok none) ∧
    (decode contents = .error e →
      read_auth_token registry (some contents) decode =
        .error ["Failed to parse Docker config", e]) ∧
    (decode contents = .ok cfg → registry = "docker.io" →
      read_auth_token registry (some contents) decode =
        .ok (lookupKey cfg.auths "https://index.docker.io/v1/")) ∧
    (decode contents = .ok cfg → registry ≠ "docker.io" →
      read_auth_token registry (some contents) decode =
        .ok (lookupKey cfg.auths registry)) ∧
    (decode contents = .ok cfg →
      lookupKey cfg.auths
          (if registry = "docker.io" then "https://index.docker.io/v1/"
           else registry) = none →
      read_auth_token registry (some contents) decode = .ok none) := by
  refine ⟨rfl, ?_, ?_, ?_, ?_⟩
  · intro h
    simp [read_auth_token, h]
  · intro h hr
    simp [read_auth_token, h, hr]
  · intro h hr
    simp [read_auth_token, h, hr]
  · intro h habs
    simp [read_auth_token, h, habs]

/-- Claim C9 witness: a Docker Hub lookup against a config holding one Hub
credential, a parse failure, and an absent file. -/
theorem read_auth_token_correct_witness :
    read_auth_token "docker.io" none (fun _ => .error "bad json") = .ok none ∧
      read_auth_token "docker.io" (some "x") (fun _ => .error "bad json") =
        .error ["Failed to parse Docker config", "bad json"] ∧
      read_auth_token "docker.io" (some "x")
          (fun _ => .ok ⟨[("https://index.docker.io/v1/", "QUJD")]⟩) =
        .ok (some "QUJD") := by
  refine ⟨?_, ?_, ?_⟩
  · exact (read_auth_token_correct "docker.io" "x" "bad json" _ ⟨[]⟩).1
  · exact (read_auth_token_correct "docker.io" "x" "bad json" _ ⟨[]⟩).2.1 rfl
  · have h := (read_auth_token_correct "docker.io" "x" ""
      (fun _ => .ok ⟨[("https://index.docker.io/v1/", "QUJD")]⟩)
      ⟨[("https://index.docker.io/v1/", "QUJD")]⟩).2.2.1 rfl rfl
    rw [h]
    rfl

/-! ### The parameter loop recovers the parameters of a well-formed header -/

lemma splitOnceChar_append (sep : Char) (l r : List Char) (h : sep ∉ l) :
    splitOnceChar sep (l ++ sep :: r) = some (l, r) := by
  induction l with
  | nil => simp [splitOnceChar]
  | cons c cs ih =>
    have hc : c ≠ sep := fun hh => h (hh ▸ List.mem_cons_self c cs)
    simp only [List.cons_append, List.append_eq, splitOnceChar, if_neg hc]
    rw [ih (fun hm => h (List.mem_cons_of_mem c hm))]
    rfl

lemma splitOnChar_no_sep (sep : Char) : ∀ (l : List Char), sep ∉ l →
    splitOnChar sep l = [l]
  | [], _ => rfl
  | c :: cs, h => by
    have hc : c ≠ sep := fun hh => h (hh ▸ List.mem_cons_self c cs)
    simp only [splitOnChar, if_neg hc]
    rw [splitOnChar_no_sep sep cs (fun hm => h (List.mem_cons_of_mem c hm))]

lemma splitOnChar_append (sep : Char) (l rest : List Char) (h : sep ∉ l) :
    splitOnChar sep (l ++ sep :: rest) = l :: splitOnChar sep rest := by
  induction l with
  | nil => simp [splitOnChar]
  | cons c cs ih =>
    have hc : c ≠ sep := fun hh => h (hh ▸ List.mem_cons_self c cs)
    simp only [List.cons_append, List.append_eq, splitOnChar, if_neg hc]
    rw [ih (fun hm => h (List.mem_cons_of_mem c hm))]

lemma comma_not_in_entry {k v : List Char} (hk : ',' ∉ k) (hv : ',' ∉ v) :
    ',' ∉ entryChars (k, v) := by
  unfold entryChars
  intro hm
  rcases List.mem_append.mp hm with h | h
  · exact hk h
  · rcases List.mem_cons.mp h with h1 | h2
    · exact absurd h1 (by decide)
    rcases List.mem_cons.mp h2 with h3 | h4
    · exact absurd h3 (by decide)
    rcases List.mem_append.mp h4 with h5 | h6
    · exact hv h5
    · exact absurd (List.mem_singleton.mp h6) (by decide)

lemma splitOnChar_join : ∀ (ps : List (List Char × List Char)), ps ≠ [] →
    (∀ p ∈ ps, ',' ∉ p.1 ∧ ',' ∉ p.2) →
    splitOnChar ',' (joinParamsChars ps) = ps.map entryChars
  | [(k, v)], _, h => by
    have hp := h (k, v) (List.mem_cons_self _ _)
    show splitOnChar ',' (entryChars (k, v)) = [entryChars (k, v)]
    exact splitOnChar_no_sep ',' _ (comma_not_in_entry hp.1 hp.2)
  | (k, v) :: q :: t, _, h => by
    have hp := h (k, v) (List.mem_cons_self _ _)
    have hjoin : joinParamsChars ((k, v) :: q :: t) =
        entryChars (k, v) ++ ',' :: joinParamsChars (q :: t) := by
      simp [joinParamsChars, entryChars, List.append_assoc]
    rw [hjoin, splitOnChar_append ',' _ _ (comma_not_in_entry hp.1 hp.2),
      splitOnChar_join (q :: t) (by simp) (fun p hm => h p (List.mem_cons_of_mem _ hm))]
    rfl

lemma dropWhile_all_false {p : Char → Bool} : ∀ (l : List Char),
    (∀ c ∈ l, p c = false) → l.dropWhile p = l
  | [], _ => rfl
  | c :: cs, h => by
    rw [List.dropWhile_cons, h c (List.mem_cons_self c cs)]
    simp

lemma trimChars_of_no_ws (l : List Char) (h : ∀ c ∈ l, c.isWhitespace = false) :
    trimChars l = l := by
  unfold trimChars dropEndWhile
  rw [dropWhile_all_false l h,
    dropWhile_all_false l.reverse (fun c hc => h c (List.mem_reverse.mp hc)),
    List.reverse_reverse]

lemma trimChars_bounded (a b : Char) (m : List Char)
    (ha : a.isWhitespace = false) (hb : b.isWhitespace = false) :
    trimChars (a :: (m ++ [b])) = a :: (m ++ [b]) := by
  unfold trimChars dropEndWhile
  rw [List.dropWhile_cons, ha]
  simp only [Bool.false_eq_true, if_false]
  rw [show (a :: (m ++ [b])).reverse = b :: (m.reverse ++ [a]) by simp]
  rw [List.dropWhile_cons, hb]
  simp

lemma trimMatches_quoted (v : List Char) (hv : '"' ∉ v) :
    trimMatchesChar '"' ('"' :: (v ++ ['"'])) = v := by
  have hvb : ∀ c ∈ v, (c == '"') = false := by
    intro c hc
    simp only [beq_eq_false_iff_ne, ne_eq]
    exact fun hh => hv (hh ▸ hc)
  unfold trimMatchesChar dropEndWhile
  rw [List.dropWhile_cons]
  simp only [beq_self_eq_true, if_true]
  cases v with
  | nil => simp [List.dropWhile]
  | cons c cs =>
    rw [List.cons_append, List.dropWhile_cons, hvb c (List.mem_cons_self c cs)]
    simp only [Bool.false_eq_true, if_false]
    rw [show (c :: (cs ++ ['"'])).reverse = '"' :: (c :: cs).reverse by simp]
    rw [List.dropWhile_cons]
    simp only [beq_self_eq_true, if_true]
    rw [dropWhile_all_false (c :: cs).reverse
      (fun x hx => hvb x (List.mem_reverse.mp hx)), List.reverse_reverse]

lemma upsert_of_not_mem {κ α : Type} [DecidableEq κ] :
    ∀ (m : List (κ × α)) (k : κ) (v : α), k ∉ m.map Prod.fst →
      upsert m k v = m ++ [(k, v)]
  | [], _, _, _ => rfl
  | (k0, v0) :: rest, k, v, h => by
    simp only [List.map_cons, List.mem_cons] at h
    push_neg at h
    simp only [upsert, if_neg (Ne.symm h.1)]
    rw [upsert_of_not_mem rest k v h.2]
    simp

lemma parse_fold_entries :
    ∀ (ps acc : List (List Char × List Char)),
      (∀ p ∈ ps, '=' ∉ p.1 ∧ (∀ c ∈ p.1, c.isWhitespace = false) ∧ '"' ∉ p.2) →
      (ps.map Prod.fst).Nodup →
      (∀ p ∈ ps, p.1 ∉ acc.map Prod.fst) →
      List.foldl
        (fun m piece =>
          match splitOnceChar '=' piece with
          | some (k, v) => upsert m (trimChars k) (trimMatchesChar '"' (trimChars v))
          | none => m)
        acc (ps.map entryChars) = acc ++ ps
  | [], acc, _, _, _ => by simp
  | (k, v) :: t, acc, hgood, hnd, hdisj => by
    have hk := hgood (k, v) (List.mem_cons_self _ _)
    rw [List.map_cons] at hnd
    have hnd' := List.nodup_cons.mp hnd
    have hsplit : splitOnceChar '=' (entryChars (k, v)) =
        some (k, '"' :: (v ++ ['"'])) := by
      unfold entryChars
      exact splitOnceChar_append '=' k _ hk.1
    simp only [List.map_cons, List.foldl_cons, hsplit]
    rw [trimChars_of_no_ws k hk.2.1,
      trimChars_bounded '"' '"' v (by decide) (by decide),
      trimMatches_quoted v hk.2.2,
      upsert_of_not_mem acc k v (hdisj (k, v) (List.mem_cons_self _ _))]
    rw [parse_fold_entries t (acc ++ [(k, v)])
      (fun p hm => hgood p (List.mem_cons_of_mem _ hm))
      hnd'.2
      (by
        intro p hm
        simp only [List.map_append, List.mem_append, List.map_cons, List.map_nil,
          List.mem_singleton, List.mem_cons, List.not_mem_nil, or_false]
        push_neg
        refine ⟨fun hacc => hdisj p (List.mem_cons_of_mem _ hm) hacc, ?_⟩
        intro hpk
        have hmem : p.1 ∈ t.map Prod.fst := List.mem_map_of_mem Prod.fst hm
        rw [hpk] at hmem
        exact hnd'.1 hmem)]
    simp

/-- The parameter loop of `handle_auth_challenge` recovers the parameter
list of a §4.3-shaped header whose keys and values avoid the separator
characters. -/
lemma parseChallengeParams_roundtrip (ps : List (List Char × List Char))
    (hne : ps ≠ [])
    (hcomma : ∀ p ∈ ps, ',' ∉ p.1 ∧ ',' ∉ p.2)
    (hgood : ∀ p ∈ ps, '=' ∉ p.1 ∧ (∀ c ∈ p.1, c.isWhitespace = false) ∧ '"' ∉ p.2)
    (hnd : (ps.map Prod.fst).Nodup) :
    parseChallengeParams (joinParamsChars ps) = ps := by
  unfold parseChallengeParams
  rw [splitOnChar_join ps hne hcomma]
  simpa using parse_fold_entries ps [] hgood hnd (by simp)

/-- Claim C8: on a §4.3-shaped challenge `<scheme> key1="v1",key2="v2",…`
the negotiator fails (issuing no request) when `realm` is absent; otherwise
it removes `realm` from the parameter map, attaches every remaining
parameter to the realm URL as a query-string argument, attaches the Basic
credential exactly when the credential reader yielded one, succeeds with
`(scheme, token)` on a 200 whose body carries a `token` string, and fails
with the failed-to-authenticate error carrying the status on any
non-200. -/
theorem handle_auth_challenge_correct
    (authRes : Except (List String) (Option String))
    (tokenResp : Option (Nat × Option String))
    (scheme : List Char) (ps : List (List Char × List Char))
    (hs : ' ' ∉ scheme)
    (hne : ps ≠ [])
    (hcomma : ∀ p ∈ ps, ',' ∉ p.1 ∧ ',' ∉ p.2)
    (hgood : ∀ p ∈ ps, '=' ∉ p.1 ∧ (∀ c ∈ p.1, c.isWhitespace = false) ∧ '"' ∉ p.2)
    (hnd : (ps.map Prod.fst).Nodup) :
    handle_auth_challenge authRes tokenResp (mkAuthHeader scheme ps) =
      match lookupKey ps "realm".data with
      | none =>
        (none, .error ["No realm found in WWW-Authenticate header: " ++
          mkAuthHeader scheme ps])
      | some realm =>
        let url := urlWithParams (String.mk realm) (eraseKey ps "realm".data)
        match authRes with
        | .error e => (none, .error e)
        | .ok cred =>
          match tokenResp with
          | none => (some ⟨url, cred⟩, .error ["Failed to fetch token from " ++ url])
          | some (status, body) =>
            if status = 200 then
              match body with
              | some tok => (some ⟨url, cred⟩, .ok (String.mk scheme, tok))
              | none => (some ⟨url, cred⟩,
                  .error ["Failed to parse token response from " ++ url])
            else (some ⟨url, cred⟩,
                .error ["Failed to authenticate: " ++ statusDisplay status]) := by
  unfold handle_auth_challenge
  rw [show (mkAuthHeader scheme ps).data = scheme ++ ' ' :: joinParamsChars ps
    from rfl]
  simp only [splitOnceChar_append ' ' scheme _ hs]
  rw [parseChallengeParams_roundtrip ps hne hcomma hgood hnd]

/-- Claim C8 witness: a Bearer challenge with realm and service, a held
Basic credential, and a successful token exchange. -/
theorem handle_auth_challenge_correct_witness :
    (' ' ∉ "Bearer".data) ∧
      ([("realm".data, "https://a/t".data), ("service".data, "reg".data)] ≠
        ([] : List (List Char × List Char))) ∧
      (∀ p ∈ [("realm".data, "https://a/t".data), ("service".data, "reg".data)],
        ',' ∉ p.1 ∧ ',' ∉ p.2) ∧
      (∀ p ∈ [("realm".data, "https://a/t".data), ("service".data, "reg".data)],
        '=' ∉ p.1 ∧ (∀ c ∈ p.1, c.isWhitespace = false) ∧ '"' ∉ p.2) ∧
      (([("realm".data, "https://a/t".data),
          ("service".data, "reg".data)].map Prod.fst).Nodup) ∧
      handle_auth_challenge (.ok (some "QUJD")) (some (200, some "tok"))
          (mkAuthHeader "Bearer".data
            [("realm".data, "https://a/t".data), ("service".data, "reg".data)]) =
        (some ⟨"https://a/t?service=reg", some "QUJD"⟩, .ok ("Bearer", "tok")) := by
  refine ⟨by decide, by decide, by decide, by decide, by decide, ?_⟩
  have h := handle_auth_challenge_correct (.ok (some "QUJD"))
    (some (200, some "tok")) "Bearer".data
    [("realm".data, "https://a/t".data), ("service".data, "reg".data)]
    (by decide) (by decide) (by decide) (by decide) (by decide)
  rw [h]
  rfl

/-- Claim C1 (code bug): a 200 response whose `tags` array is empty does not
terminate the loop gracefully.  The code computes `page_tags[page_len - 1]`
before the `page_len < 100` check, so on an empty first page `0 - 1`
underflows and the access panics instead of returning zero tags. -/
theorem fetch_tags_empty_page_panics :
    fetch_tags ⟨"docker.io", "nginx"⟩ (fun _ => .error ["unused"]) [.ok []] =
      ([("https://registry-1.docker.io/v2/library/nginx/tags/list?n=100", "")],
       .panic) := by
  rfl

/-- Claim C4 counterexample: after a successful negotiation stored token
"tok", a second 401 carrying no `WWW-Authenticate` header does not produce
"Image not found": it falls to the generic status arm and the error is the
bare status display "401 Unauthorized". -/
theorem fetch_tags_post_auth_401_no_header_cex :
    (fetch_tags ⟨"quay.io", "a/b"⟩ (fun _ => .ok ("Bearer", "tok"))
        [.unauthorized (some "Bearer realm=x"), .unauthorized none]).2 =
      .err ["401 Unauthorized"] ∧
      ("401 Unauthorized" : String) ≠ "Image not found" := by
  constructor
  · rfl
  · decide

/-- Claim C4 (amended): with a bearer token held (state S1), a 401 whose
`WWW-Authenticate` header is present fails with top-level message exactly
"Image not found" caused by "Got HTTP 401 with authentication token"; a 401
without the header instead falls to the generic arm and fails with the bare
HTTP status error. -/
theorem fetch_tags_post_auth_401
    (authFn : String → Except (List String) (String × String))
    (url nextUrl token : String) (acc : List Tag) (hdr : String)
    (rest : List Resp) (htok : token ≠ "") :
    fetchLoop authFn url nextUrl token acc (.unauthorized (some hdr) :: rest) =
      ([(nextUrl, token)],
       .err ["Image not found", "Got HTTP 401 with authentication token"]) ∧
    fetchLoop authFn url nextUrl token acc (.unauthorized none :: rest) =
      ([(nextUrl, token)], .err [statusDisplay 401]) := by
  constructor
  · unfold fetchLoop
    simp only []
    rw [if_pos htok]
  · rfl

/-- Claim C4 witness: the amended statement at a concrete state. -/
theorem fetch_tags_post_auth_401_witness :
    ("tok" : String) ≠ "" ∧
      fetchLoop (fun _ => .error ["unused"]) "base" "base" "tok" []
          [.unauthorized (some "Bearer realm=x")] =
        ([("base", "tok")],
         .err ["Image not found", "Got HTTP 401 with authentication token"]) :=
  ⟨by decide,
   (fetch_tags_post_auth_401 (fun _ => .error ["unused"]) "base" "base" "tok" []
      "Bearer realm=x" [] (by decide)).1⟩

lemma fetchLoop_pages (authFn : String → Except (List String) (String × String))
    (url token : String) :
    ∀ (pages : List (List String)) (nextUrl : String) (acc : List Tag),
      pages ≠ [] →
      (∀ p ∈ pages, p ≠ []) →
      (∀ p ∈ pages.dropLast, p.length = 100) →
      (∀ p, pages.getLast? = some p → p.length < 100) →
      fetchLoop authFn url nextUrl token acc (pages.map .ok) =
        (traceFor url nextUrl token pages, .ok (acc ++ (pages.flatten).map Tag.mk))
  | [], _, _, hne, _, _, _ => absurd rfl hne
  | [p], nextUrl, acc, _, hpne, _, hlast => by
    have hp : p ≠ [] := hpne p (List.mem_cons_self _ _)
    have hlen : p.length < 100 := hlast p rfl
    obtain ⟨l, hl⟩ : ∃ l, p.getLast? = some l := by
      cases hgl : p.getLast? with
      | none => exact absurd (List.getLast?_eq_none_iff.mp hgl) hp
      | some l => exact ⟨l, rfl⟩
    simp only [List.map_cons, List.map_nil]
    unfold fetchLoop
    simp only [hl]
    rw [if_pos hlen]
    simp [traceFor]
  | p :: q :: t, nextUrl, acc, _, hpne, hfull, hlast => by
    have hp : p ≠ [] := hpne p (List.mem_cons_self _ _)
    have hfullp : p.length = 100 := by
      refine hfull p ?_
      rw [List.dropLast_cons₂]
      exact List.mem_cons_self _ _
    obtain ⟨l, hl⟩ : ∃ l, p.getLast? = some l := by
      cases hgl : p.getLast? with
      | none => exact absurd (List.getLast?_eq_none_iff.mp hgl) hp
      | some l => exact ⟨l, rfl⟩
    have hnotlt : ¬ p.length < 100 := by omega
    simp only [List.map_cons]
    unfold fetchLoop
    simp only [hl]
    rw [if_neg hnotlt]
    have IH := fetchLoop_pages authFn url token (q :: t)
      (urlWithParams url [("last".data, l.data)]) (acc ++ p.map Tag.mk)
      (by simp)
      (fun x hm => hpne x (List.mem_cons_of_mem _ hm))
      (by
        intro x hm
        refine hfull x ?_
        rw [List.dropLast_cons₂]
        exact List.mem_cons_of_mem _ hm)
      (by
        intro x hm
        refine hlast x ?_
        rw [List.getLast?_cons_cons]
        exact hm)
    simp only [List.map_cons] at IH
    rw [IH]
    simp [traceFor, hl, List.append_assoc]

/-- Claim C5: over any complete run of 200 pages — every page nonempty, all
but the last of exactly 100 entries, the last shorter — the fetcher returns
the concatenation of the page bodies in request order, and each follow-up
request URL is the base URL (carrying `n=100`) plus a fresh
`last=<final element of the page just received>` query parameter, never the
previous request URL with `last` appended. -/
theorem fetch_tags_pagination (img : Image)
    (authFn : String → Except (List String) (String × String))
    (pages : List (List String))
    (hne : pages ≠ []) (hpne : ∀ p ∈ pages, p ≠ [])
    (hfull : ∀ p ∈ pages.dropLast, p.length = 100)
    (hlast : ∀ p, pages.getLast? = some p → p.length < 100) :
    fetch_tags img authFn (pages.map .ok) =
      (traceFor (baseUrl img) (baseUrl img) "" pages,
       .ok ((pages.flatten).map Tag.mk)) := by
  unfold fetch_tags
  rw [fetchLoop_pages authFn (baseUrl img) "" pages (baseUrl img) [] hne hpne
    hfull hlast]
  simp

/-- Claim C5 witness: a full page of 100 entries followed by a short page. -/
theorem fetch_tags_pagination_witness :
    (([List.replicate 100 "a", ["b"]] : List (List String)) ≠ []) ∧
      (∀ p ∈ ([List.replicate 100 "a", ["b"]] : List (List String)), p ≠ []) ∧
      (∀ p ∈ ([List.replicate 100 "a", ["b"]] : List (List String)).dropLast,
        p.length = 100) ∧
      (∀ p, ([List.replicate 100 "a", ["b"]] : List (List String)).getLast? =
          some p → p.length < 100) ∧
      fetch_tags ⟨"docker.io", "nginx"⟩ (fun _ => .error ["unused"])
          ([List.replicate 100 "a", ["b"]].map .ok) =
        (traceFor (baseUrl ⟨"docker.io", "nginx"⟩)
          (baseUrl ⟨"docker.io", "nginx"⟩) "" [List.replicate 100 "a", ["b"]],
         .ok ((([List.replicate 100 "a", ["b"]] : List (List String)).flatten).map
          Tag.mk)) :=
  ⟨by decide, by decide, by decide,
   by
     intro p hp
     rw [show ([List.replicate 100 "a", ["b"]] : List (List String)).getLast? =
       some ["b"] from rfl] at hp
     cases hp
     decide,
   fetch_tags_pagination ⟨"docker.io", "nginx"⟩ (fun _ => .error ["unused"])
     [List.replicate 100 "a", ["b"]] (by decide) (by decide) (by decide)
     (by
       intro p hp
       rw [show ([List.replicate 100 "a", ["b"]] : List (List String)).getLast? =
         some ["b"] from rfl] at hp
       cases hp
       decide)⟩

/-- Claim C5 counterexample: a page with fewer than 100 entries does not
always terminate the loop successfully — an empty page (zero entries,
following a full page) panics instead of returning the accumulated
concatenation of page bodies. -/
theorem fetch_tags_short_page_cex :
    (fetch_tags ⟨"ghcr.io", "xtls/xray-core"⟩ (fun _ => .error ["unused"])
        ([List.replicate 100 "t", []].map .ok)).2 = .panic ∧
      (FetchOutcome.panic ≠
        .ok ((([List.replicate 100 "t", []] : List (List String)).flatten).map
          Tag.mk)) := by
  constructor
  · rfl
  · decide

end DockerTags
